import Mathlib

/-!
Verification development for the football-bets engine.

The definitions below are shallow embeddings of the Python sources:
  * `src/app/model.py`   — Poisson score matrix and market probabilities,
  * `src/app/markets.py` — quote reconciliation and value detection,
  * `src/app/staking.py` — half-Kelly stake sizing.

Matrix entries are embedded generically over a linear ordered field so that
the same definitions serve both exact rational test inputs and the real
Poisson matrix.  Betting lines, which the Python code manipulates as floats
on the quarter-goal grid, are embedded as rationals; the float comparisons
`abs(x) > 1e-9` and `abs(x) < 1e-9` from the source are kept literally.
-/

namespace FootballBets

/-! ## model.py : score matrix helpers (generic in the entry field) -/

variable {α : Type} [LinearOrderedField α]

/-- Python's `x % y` for a positive rational modulus `y` (result in `[0, y)`),
as used by `_ah_cover_push_probs` to test for quarter lines. -/
def pymod (x y : ℚ) : ℚ := x - y * ⌊x / y⌋

/-- Embedding of `_prob_ou_over(M, L)` from model.py: total mass of cells with
`i + j > L`, the two nested loops running over `0..maxg`. -/
def prob_ou_over (M : ℕ → ℕ → α) (maxg : ℕ) (L : ℚ) : α :=
  ∑ i ∈ Finset.range (maxg + 1), ∑ j ∈ Finset.range (maxg + 1),
    if L < (i : ℚ) + (j : ℚ) then M i j else 0

/-- Embedding of `_prob_diff(M, cmp)` from model.py: total mass of cells whose
goal difference `i - j` satisfies the predicate `cmp`. -/
def prob_diff (M : ℕ → ℕ → α) (maxg : ℕ) (cmp : ℤ → Bool) : α :=
  ∑ i ∈ Finset.range (maxg + 1), ∑ j ∈ Finset.range (maxg + 1),
    if cmp ((i : ℤ) - (j : ℤ)) then M i j else 0

/-- Embedding of `np.tril(M, -1).sum()` over the `(maxg+1) × (maxg+1)` score
matrix: strict lower triangle, i.e. home wins. -/
def sum_tril (M : ℕ → ℕ → α) (maxg : ℕ) : α :=
  ∑ i ∈ Finset.range (maxg + 1), ∑ j ∈ Finset.range (maxg + 1),
    if j < i then M i j else 0

/-- Embedding of `np.trace(M)`: the diagonal, i.e. draws. -/
def sum_trace (M : ℕ → ℕ → α) (maxg : ℕ) : α :=
  ∑ i ∈ Finset.range (maxg + 1), ∑ j ∈ Finset.range (maxg + 1),
    if i = j then M i j else 0

/-- Embedding of `np.triu(M, 1).sum()`: strict upper triangle, i.e. away wins. -/
def sum_triu (M : ℕ → ℕ → α) (maxg : ℕ) : α :=
  ∑ i ∈ Finset.range (maxg + 1), ∑ j ∈ Finset.range (maxg + 1),
    if i < j then M i j else 0

/-- Total mass `M.sum()` of the truncated score matrix. -/
def total_mass (M : ℕ → ℕ → α) (maxg : ℕ) : α :=
  ∑ i ∈ Finset.range (maxg + 1), ∑ j ∈ Finset.range (maxg + 1), M i j

/-- Embedding of `_ah_cover_push_probs(M, home_line)` from model.py, returning
the pair `(cover, push)`.  Quarter lines (those failing the float test
`abs(home_line % 0.5) > 1e-9`) are averaged over the two adjacent half/whole
lines `floor(2L)/2` and `ceil(2L)/2`; whole lines (float test
`abs(L - round(L)) < 1e-9`) push on `diff = round(L)` and cover on
`diff > round(L)`; half lines cover on `diff > L` with no push. -/
def ah_cover_push_probs (M : ℕ → ℕ → α) (maxg : ℕ) (L : ℚ) : α × α :=
  if 1e-9 < |pymod L (1 / 2)| then
    let lower : ℚ := (⌊L * 2⌋ : ℚ) / 2
    let upper : ℚ := (⌈L * 2⌉ : ℚ) / 2
    let d1 := ah_cover_push_probs M maxg lower
    let d2 := ah_cover_push_probs M maxg upper
    ((d1.1 + d2.1) / 2, (d1.2 + d2.2) / 2)
  else if |L - round L| < 1e-9 then
    (prob_diff M maxg (fun d => decide (round L < d)),
     prob_diff M maxg (fun d => decide (d = round L)))
  else
    (prob_diff M maxg (fun d => decide (L < (d : ℚ))), 0)
termination_by if 1e-9 < |pymod L (1 / 2)| then 1 else 0
decreasing_by
  · have h0 : pymod ((⌊L * 2⌋ : ℚ) / 2) (1 / 2) = 0 := by
      unfold pymod
      have h2 : ((⌊L * 2⌋ : ℚ) / 2) / (1 / 2) = ((⌊L * 2⌋ : ℤ) : ℚ) := by ring
      rw [h2, Int.floor_intCast]
      ring
    rw [h0]
    have h : (1e-9 : ℚ) < |pymod L (1 / 2)| := by assumption
    rw [if_neg (by norm_num), if_pos h]
    norm_num
  · have h0 : pymod ((⌈L * 2⌉ : ℚ) / 2) (1 / 2) = 0 := by
      unfold pymod
      have h2 : ((⌈L * 2⌉ : ℚ) / 2) / (1 / 2) = ((⌈L * 2⌉ : ℤ) : ℚ) := by ring
      rw [h2, Int.floor_intCast]
      ring
    rw [h0]
    have h : (1e-9 : ℚ) < |pymod L (1 / 2)| := by assumption
    rw [if_neg (by norm_num), if_pos h]
    norm_num

/-- Stable insertion of an element into a list ordered by the Boolean
comparator `le` (`le a b` means `a` may come before `b`); the new element goes
after existing elements it compares equal to.  This is the sorting backend for
the embeddings of Python's `sorted(...)` and pandas' `sort_values`; ties are
kept in input order (pandas' default quicksort leaves tie order unspecified, so
any fixed tie order is a sound refinement of it). -/
def insert_ord {β : Type} (le : β → β → Bool) (r : β) : List β → List β
  | [] => [r]
  | x :: xs => if le x r then x :: insert_ord le r xs else r :: x :: xs

/-- Stable sort by the Boolean comparator `le` (insertion sort). -/
def sort_ord {β : Type} (le : β → β → Bool) (l : List β) : List β :=
  l.foldl (fun acc r => insert_ord le r acc) []

/-- Embedding of `sorted(set(ah_home_lines))` from model.py: deduplicate, then
sort ascending. -/
def sorted_lines (l : List ℚ) : List ℚ :=
  sort_ord (fun a b => decide (a ≤ b)) l.eraseDups

/-- Keys of the probability dictionary returned by `market_probs`.  The Python
code uses the strings `"p_H"`, `"p_D"`, `"p_A"`, `"p_OU{line}_Over"`,
`"p_OU{line}_Under"`, `"p_AH_home_{line}"`, `"p_AH_away_{line}"`; the float
`{line}` labels are injective on the lines actually used, so the keys are
embedded as a tagged type carrying the line.  The constructors `pBTTSYes` and
`pBTTSNo` name the both-teams-to-score keys that the specification describes
(`p_BTTS_Yes` / `p_BTTS_No` in the schema comment of markets.py). -/
inductive MKey : Type
  | pH
  | pD
  | pA
  | pBTTSYes
  | pBTTSNo
  | pOUOver (line : ℚ)
  | pOUUnder (line : ℚ)
  | pAHhome (line : ℚ)
  | pAHaway (line : ℚ)
  deriving DecidableEq

/-- Body of `market_probs` from model.py, with the score matrix `M` already
built (the Python function's first statement is `M = score_matrix(...)`; the
remainder is this function).  It returns the key/probability pairs in the
order the Python dict is populated: 1X2, then Over/Under per requested line,
then Asian-handicap home/away cover per sorted deduplicated home line.  The
`try: float(L) except: continue` guards are vacuous here since lines are
already rationals. -/
def market_probs_table (M : ℕ → ℕ → α) (maxg : ℕ)
    (ou_lines ah_home_lines : List ℚ) : List (MKey × α) :=
  [(MKey.pH, sum_tril M maxg), (MKey.pD, sum_trace M maxg),
   (MKey.pA, sum_triu M maxg)]
  ++ ou_lines.flatMap (fun L =>
      [(MKey.pOUOver L, prob_ou_over M maxg L),
       (MKey.pOUUnder L, 1 - prob_ou_over M maxg L)])
  ++ (sorted_lines ah_home_lines).flatMap (fun L =>
      [(MKey.pAHhome L, (ah_cover_push_probs M maxg L).1),
       (MKey.pAHaway (-L), (ah_cover_push_probs M maxg (-L)).1)])

/-- Lookup in the key/probability list (the Python dict).  Duplicate keys
cannot arise for distinct lines, so first-match lookup agrees with the dict. -/
def mp_lookup (l : List (MKey × α)) (k : MKey) : Option α :=
  match l with
  | [] => none
  | p :: ps => if p.1 = k then some p.2 else mp_lookup ps k

/-! ## model.py : the Poisson score matrix over ℝ -/

/-- Embedding of `poisson_pmf(lam, k)` from model.py:
`exp(-lam) * lam ** k / factorial(k)`. -/
noncomputable def poisson_pmf (lam : ℝ) (k : ℕ) : ℝ :=
  Real.exp (-lam) * lam ^ k / (Nat.factorial k)

/-- Embedding of `score_matrix(lh, la, maxg)` from model.py: the outer product
of the two truncated Poisson vectors.  numpy stores only indices `0..maxg`;
the embedding is a total function whose values outside that square are never
read (every consumer sums over `Finset.range (maxg+1)`). -/
noncomputable def score_matrix (lh la : ℝ) (_maxg : ℕ) : ℕ → ℕ → ℝ :=
  fun i j => poisson_pmf lh i * poisson_pmf la j

/-- Embedding of `market_probs(lh, la, maxg, ou_lines, ah_home_lines)` from
model.py (Python defaults: `maxg=7`, `ou_lines=(2.5,)`, `ah_home_lines=()`). -/
noncomputable def market_probs (lh la : ℝ) (maxg : ℕ)
    (ou_lines ah_home_lines : List ℚ) : List (MKey × ℝ) :=
  market_probs_table (score_matrix lh la maxg) maxg ou_lines ah_home_lines

/-! ## markets.py : cells, rows and DataFrames

pandas cells are embedded as strings, exact rationals (for finite floats) or
`na` (NaN / pd.NA).  Non-finite float values (inf) and float NaN arithmetic
are outside the rational embedding; the theorems below never place them in
numeric cells.  A DataFrame is a column list plus rows of column/cell pairs
(each row lists exactly the frame's columns, in order). -/

inductive Cell : Type
  | str (s : String)
  | num (q : ℚ)
  | na
  deriving DecidableEq

structure DataFrame : Type where
  cols : List String
  rows : List (List (String × Cell))
  deriving DecidableEq

/-- A row of a DataFrame: colum-name/cell pairs. -/
abbrev Row : Type := List (String × Cell)

/-- Cell of a row at a column (`Series.get` without default: `None` when the
label is absent). -/
def row_get (r : Row) (c : String) : Option Cell :=
  match r with
  | [] => none
  | p :: ps => if p.1 = c then some p.2 else row_get ps c

/-- Cell of a row at a column with a string default, as in
`row.get(col, "")`. -/
def row_getD (r : Row) (c : String) (d : Cell) : Cell :=
  match row_get r c with
  | some v => v
  | none => d

/-- Python `str(...)` of a cell, as used on market/selection/team cells
(`str(NaN)` is `"nan"`; numeric cells are rendered by `toString`, which the
theorems below never rely on — markets and selections are string cells). -/
def cell_str (c : Cell) : String :=
  match c with
  | Cell.str s => s
  | Cell.num q => toString q
  | Cell.na => "nan"

/-- Digit-string value, or `none` when empty or not all digits. -/
def digits_val (cs : List Char) : Option ℕ :=
  if cs ≠ [] ∧ cs.all Char.isDigit then
    some (cs.foldl (fun n c => 10 * n + (c.toNat - 48)) 0)
  else none

/-- Decimal-string parsing, modelling Python's `float(...)` on plain decimal
literals (optional sign, digits, optional fractional part).  Exponent forms
and `inf`/`nan` literals are not modelled — they are treated as unparseable,
which the theorems below never exercise. -/
def parse_decimal (s : String) : Option ℚ :=
  let t := s.trim
  let sgn : ℚ := if t.startsWith "-" then -1 else 1
  let t := if t.startsWith "-" ∨ t.startsWith "+" then t.drop 1 else t
  match t.splitOn "." with
  | [ip] => (digits_val ip.toList).map (fun n => sgn * n)
  | [ip, fp] =>
    if ip.isEmpty ∧ fp.isEmpty then none
    else
      let ipv := if ip.isEmpty then some 0 else digits_val ip.toList
      let fpv := if fp.isEmpty then some (0 : ℚ)
        else (digits_val fp.toList).map (fun n => (n : ℚ) / 10 ^ fp.length)
      match ipv, fpv with
      | some a, some b => some (sgn * ((a : ℚ) + b))
      | _, _ => none
  | _ => none

/-- `pd.to_numeric(_, errors="coerce")` on one cell: numbers pass through,
NaN stays NaN, strings parse to a number or coerce to NaN. -/
def coerce_num (c : Cell) : Cell :=
  match c with
  | Cell.num q => Cell.num q
  | Cell.na => Cell.na
  | Cell.str s =>
    match parse_decimal s with
    | some q => Cell.num q
    | none => Cell.na

def REQUIRED_FIXTURE_COLS : List String :=
  ["match_id", "league", "utc_kickoff", "home", "away"]

def REQUIRED_ODDS_COLS : List String :=
  ["match_id", "league", "utc_kickoff", "market", "selection", "price",
   "book", "home", "away"]

/-- Embedding of `_ensure_cols(df, req)` from markets.py.  For each required
column missing from the frame it appends the column, filling every row with
`""` (or NA for `price`); then, when a `price` column exists, it coerces that
column to numeric.  In Python these writes mutate the caller's DataFrame in
place; the returned frame is therefore also the post-call state of the
argument. -/
def ensure_cols (df : DataFrame) (req : List String) : DataFrame :=
  let df := req.foldl
    (fun d c =>
      if c ∈ d.cols then d
      else
        { cols := d.cols ++ [c],
          rows := d.rows.map
            (fun r => r ++ [(c, if c = "price" then Cell.na else Cell.str "")]) })
    df
  if "price" ∈ df.cols then
    { df with
      rows := df.rows.map
        (fun r => r.map (fun p => if p.1 = "price" then (p.1, coerce_num p.2) else p)) }
  else df

/-- Embedding of `_implied_prob(price)` from markets.py: `1/float(price)`
guarded by try/except and an `isfinite` check.  `None` (missing) and NaN
prices give `none`; a zero price divides by zero (caught), giving `none`. -/
def implied_prob (price : Option Cell) : Option ℚ :=
  match price with
  | some (Cell.num q) => if q = 0 then none else some (1 / q)
  | some (Cell.str s) =>
    match parse_decimal s with
    | some q => if q = 0 then none else some (1 / q)
    | none => none
  | some Cell.na => none
  | none => none

/-- Embedding of `_edge(model_p, price)` from markets.py: model probability
minus implied probability, `none` when either is unavailable. -/
def edge_val (model_p : Option ℚ) (price : Option Cell) : Option ℚ :=
  match model_p, implied_prob price with
  | some mp, some ip => some (mp - ip)
  | _, _ => none

/-- `float(model_row.get(c, 0.0))` for the 1X2/AH branches of
`_extract_model_prob`: a missing column yields the float default `0.0`.
NaN and non-numeric cells in model probability columns are not modelled
(Python would propagate NaN or raise there). -/
def row_float0 (r : Row) (c : String) : ℚ :=
  match row_get r c with
  | some (Cell.num q) => q
  | some _ => 0
  | none => 0

/-- `float(v)` on an existing cell for the Over/Under branch, whose
try/except converts a failure into `None`. -/
def cell_float (c : Cell) : Option ℚ :=
  match c with
  | Cell.num q => some q
  | Cell.str s => parse_decimal s
  | Cell.na => none

/-- Python's `market.startswith(pre)`, rendered on character lists so that it
evaluates by kernel reduction. -/
def str_starts (s pre : String) : Bool := pre.toList.isPrefixOf s.toList

/-- Embedding of `_extract_model_prob(model_row, market, selection)` from
markets.py: 1X2 reads `p_H`/`p_D`/`p_A` (default 0.0); a market starting with
`"OU"` reads the exact key `p_OU{line}_{selection}` and yields `none` when it
is absent; a market starting with `"AH"` reads `p_H`/`p_A` as a proxy (the
source comments it "basic proxy (can refine later)"); anything else yields
`none`. -/
def extract_model_prob (mrow : Row) (market sel : String) : Option ℚ :=
  if market = "1X2" then
    if sel = "Home" then some (row_float0 mrow "p_H")
    else if sel = "Draw" then some (row_float0 mrow "p_D")
    else if sel = "Away" then some (row_float0 mrow "p_A")
    else none
  else if str_starts market "OU" then
    match row_get mrow ("p_OU" ++ market.drop 2 ++ "_" ++ sel) with
    | some v => cell_float v
    | none => none
  else if str_starts market "AH" then
    if sel = "Home" then some (row_float0 mrow "p_H")
    else if sel = "Away" then some (row_float0 mrow "p_A")
    else none
  else none

/-! ## markets.py : find_value_bets pipeline -/

/-- Deduplication signature used by `drop_duplicates(subset=["match_id",
"market", "selection"])`: the cell values of those three columns. -/
def sig_of (r : Row) : Option Cell × Option Cell × Option Cell :=
  (row_get r "match_id", row_get r "market", row_get r "selection")

/-- Numeric value of a column cell, `none` for missing/NaN/string cells. -/
def col_num (r : Row) (c : String) : Option ℚ :=
  match row_get r c with
  | some (Cell.num q) => some q
  | _ => none

/-- Row comparator for `sort_values(c, ascending=False)`: larger values
first, missing/NaN values last (`na_position="last"`). -/
def col_desc_le (c : String) (a b : Row) : Bool :=
  match col_num a c, col_num b c with
  | some pa, some pb => decide (pb ≤ pa)
  | some _, none => true
  | none, some _ => false
  | none, none => true

/-- Embedding of `drop_duplicates(subset=..., keep="first")`: keep the first
row of each signature, scanning left to right with the set of seen keys. -/
def drop_dups_first (key : Row → Option Cell × Option Cell × Option Cell) :
    List Row → List (Option Cell × Option Cell × Option Cell) → List Row
  | [], _ => []
  | r :: rs, seen =>
    if key r ∈ seen then drop_dups_first key rs seen
    else r :: drop_dups_first key rs (key r :: seen)

/-- Embedding of the reconciliation step of `find_value_bets` (sort by price
descending, then keep the first row per (match_id, market, selection)):
the best-available price per distinct outcome. -/
def best_price_per_sig (odds : List Row) : List Row :=
  drop_dups_first sig_of (sort_ord (col_desc_le "price") odds) []

/-- Embedding of the inner merge of odds with
`fixtures[["match_id","league","utc_kickoff","home","away"]]` on `match_id`:
each odds row is kept once per matching fixture row, with the fixture's
overlapping columns appended under the `_fx` suffix (the odds row already has
the unsuffixed names, and only those are read downstream). -/
def merge_fixtures (odds fixtures : List Row) : List Row :=
  odds.flatMap (fun o =>
    (fixtures.filter
        (fun f => decide (row_get f "match_id" = row_get o "match_id"))).map
      (fun f =>
        o ++ [("league_fx", row_getD f "league" Cell.na),
              ("utc_kickoff_fx", row_getD f "utc_kickoff" Cell.na),
              ("home_fx", row_getD f "home" Cell.na),
              ("away_fx", row_getD f "away" Cell.na)]))

/-- Substring test, `s.contains(pat)` on strings (an empty pattern matches
everything). -/
def str_contains (s pat : String) : Bool :=
  if pat = "" then true else decide (2 ≤ (s.splitOn pat).length)

/-- Embedding of the optional book filter: keep rows whose lowercased `book`
rendering contains the lowercased, stripped filter string. -/
def book_filter_rows (rows : List Row) (bf : String) : List Row :=
  if bf = "" then rows
  else
    let bl := (bf.toLower).trim
    rows.filter
      (fun r => str_contains ((cell_str (row_getD r "book" (Cell.str ""))).toLower) bl)

/-- Embedding of the `mp_index` dict comprehension: model rows keyed by their
`match_id` cell, skipping rows without the label or with a NaN id.  The list
keeps insertion order; lookups take the last binding, as dict insertion
overwrites earlier keys. -/
def mp_index (model_rows : List Row) : List (Cell × Row) :=
  model_rows.filterMap (fun r =>
    match row_get r "match_id" with
    | some c => if c = Cell.na then none else some (c, r)
    | none => none)

/-- `dict.get` on the index: last binding wins; a missing or NaN key finds
nothing (`nan != nan` in a float-keyed dict, and NaN keys are never
inserted). -/
def dict_get_last (l : List (Cell × Row)) (k : Option Cell) : Option Row :=
  match k with
  | none => none
  | some Cell.na => none
  | some kc => (l.reverse.find? (fun p => decide (p.1 = kc))).map Prod.snd

/-- Python truthiness fallback `a or b` on the cells that appear in pick rows
(falsy: the empty string and the number 0; NaN cells are truthy for floats). -/
def py_or (a b : Cell) : Cell :=
  if a = Cell.str "" ∨ a = Cell.num 0 then b else a

/-- Embedding of `_pick_row_common(frow, orow, market, selection, model_p,
edge, price)` from markets.py, building one output record.  The caller passes
`frow = orow` (the merged odds row). -/
def pick_row_common (frow orow : Row) (market sel : String)
    (model_p : Option ℚ) (eg : Option ℚ) (price : Option Cell) : Row :=
  [("utc_kickoff", py_or (row_getD frow "utc_kickoff" (Cell.str ""))
                         (row_getD orow "utc_kickoff" (Cell.str ""))),
   ("match", Cell.str (cell_str (row_getD frow "home" (Cell.str "")) ++ " vs "
                       ++ cell_str (row_getD frow "away" (Cell.str "")))),
   ("market", Cell.str market),
   ("selection", Cell.str sel),
   ("price", match price with | some c => c | none => Cell.na),
   ("book", row_getD orow "book" (Cell.str "")),
   ("model_prob", match model_p with | some q => Cell.num q | none => Cell.str ""),
   ("implied", match price with
               | none => Cell.str ""
               | some _ =>
                 match implied_prob price with
                 | some q => Cell.num q
                 | none => Cell.na),
   ("edge", match eg with | some q => Cell.num q | none => Cell.str ""),
   ("stake_pct", Cell.str ""),
   ("stake_amt", Cell.str ""),
   ("league", py_or (row_getD frow "league" (Cell.str ""))
                    (row_getD orow "league" (Cell.str ""))),
   ("home", py_or (row_getD frow "home" (Cell.str ""))
                  (row_getD orow "home" (Cell.str ""))),
   ("away", py_or (row_getD frow "away" (Cell.str ""))
                  (row_getD orow "away" (Cell.str ""))),
   ("match_id", py_or (row_getD frow "match_id" (Cell.str ""))
                      (row_getD orow "match_id" (Cell.str "")))]

/-- Body of the `for _, orow in odds.iterrows()` loop of `find_value_bets`:
resolve the model row by match id (skip when absent), extract the model
probability for the quote's market/selection, compute the edge, and keep the
quote only when the edge is defined and at least the threshold. -/
def process_quote (idx : List (Cell × Row)) (edge_threshold : ℚ)
    (orow : Row) : Option Row :=
  match dict_get_last idx (row_get orow "match_id") with
  | none => none
  | some mrow =>
    let market := cell_str (row_getD orow "market" (Cell.str ""))
    let sel := cell_str (row_getD orow "selection" (Cell.str ""))
    let price := row_get orow "price"
    let mp := extract_model_prob mrow market sel
    match edge_val mp price with
    | none => none
    | some eg =>
      if eg < edge_threshold then none
      else some (pick_row_common orow orow market sel mp (some eg) price)

def PICK_COLS : List String :=
  ["utc_kickoff", "match", "market", "selection", "price", "book",
   "model_prob", "implied", "edge", "stake_pct", "stake_amt",
   "league", "home", "away", "match_id"]

/-- Final cleanup `pd.to_numeric(out[col], errors="coerce")` on the
`model_prob`, `implied` and `edge` columns (the subsequent ±inf→NA
replacement has no effect on rational cells). -/
def clean_pick (r : Row) : Row :=
  r.map (fun p =>
    if p.1 = "model_prob" ∨ p.1 = "implied" ∨ p.1 = "edge"
    then (p.1, coerce_num p.2) else p)

/-- Embedding of `find_value_bets(fixtures, odds, model_probs,
edge_threshold, book_filter, max_picks)` from markets.py (Python defaults:
`edge_threshold=0.05`, `book_filter=""`, `max_picks=50`). -/
def find_value_bets (fixtures odds model_probs : DataFrame)
    (edge_threshold : ℚ) (book_filter : String) (max_picks : ℕ) : DataFrame :=
  let fixtures := ensure_cols fixtures REQUIRED_FIXTURE_COLS
  let odds := ensure_cols odds REQUIRED_ODDS_COLS
  if odds.rows.isEmpty ∨ fixtures.rows.isEmpty then ⟨PICK_COLS, []⟩
  else
    let odds1 := merge_fixtures odds.rows fixtures.rows
    let odds2 := book_filter_rows odds1 book_filter
    let odds3 := best_price_per_sig odds2
    if model_probs.rows.isEmpty then ⟨PICK_COLS, []⟩
    else
      let idx := mp_index model_probs.rows
      let picks := odds3.filterMap (process_quote idx edge_threshold)
      if picks.isEmpty then ⟨PICK_COLS, []⟩
      else
        ⟨PICK_COLS,
         ((sort_ord (col_desc_le "edge") picks).take max_picks).map clean_pick⟩

/-- Post-call state of the three DataFrame arguments of `find_value_bets`:
the Python `_ensure_cols` writes columns and the coerced price column into
the caller's `fixtures` and `odds` objects in place (`df[c] = ...`), so after
the call the caller's frames are the ensured ones; `model_probs` is only
read. -/
def find_value_bets_arg_state (fixtures odds model_probs : DataFrame) :
    DataFrame × DataFrame × DataFrame :=
  (ensure_cols fixtures REQUIRED_FIXTURE_COLS,
   ensure_cols odds REQUIRED_ODDS_COLS,
   model_probs)

/-! ## staking.py : StakeSizer -/

structure StakeSizer : Type where
  bankroll : ℚ
  min_pct : ℚ
  max_pct : ℚ

/-- Embedding of `StakeSizer._kelly_half(p, price)`: zero when the net odds
`b = price - 1` are nonpositive, otherwise the half-Kelly fraction floored at
0 and clamped into `[min_pct, max_pct]`. -/
def kelly_half (s : StakeSizer) (p price : ℚ) : ℚ :=
  let b := price - 1
  if b ≤ 0 then 0
  else
    let f_star := (b * p - (1 - p)) / b
    let f_half := max 0 f_star * 0.5
    min (max f_half s.min_pct) s.max_pct

/-- Round half to even (numpy/pandas `.round` tie behaviour). -/
def round_half_even (x : ℚ) : ℤ :=
  if x - ⌊x⌋ < 1 / 2 then ⌊x⌋
  else if 1 / 2 < x - ⌊x⌋ then ⌊x⌋ + 1
  else if ⌊x⌋ % 2 = 0 then ⌊x⌋ else ⌊x⌋ + 1

/-- `.round(2)`: round to two decimal places, ties to even. -/
def round2 (x : ℚ) : ℚ := (round_half_even (x * 100) : ℚ) / 100

/-- Column assignment `out[c] = v` on one row: overwrite the existing cell or
append the new column. -/
def set_col (r : Row) (c : String) (v : Cell) : Row :=
  if (row_get r c).isSome then r.map (fun p => if p.1 = c then (p.1, v) else p)
  else r ++ [(c, v)]

/-- Embedding of `StakeSizer.apply(picks_df)`: on a copy of the picks frame,
set `stake_pct` to the half-Kelly fraction of each row's `model_prob`/`price`
and `stake_amt` to `bankroll * stake_pct` rounded to 2 decimals.  (Reading a
missing or non-numeric `model_prob`/`price` would raise in Python; such rows
are not modelled and never appear in pick frames.) -/
def stake_apply (s : StakeSizer) (picks : DataFrame) : DataFrame :=
  if picks.rows.isEmpty then picks
  else
    { picks with
      rows := picks.rows.map (fun r =>
        let f := kelly_half s (row_float0 r "model_prob") (row_float0 r "price")
        set_col (set_col r "stake_pct" (Cell.num f)) "stake_amt"
          (Cell.num (round2 (s.bankroll * f)))) }

/-- Joint score table putting all mass on the score 0–1 (home 0, away 1), so
`diff = home - away = -1` with probability 1.  Failing input for claim C4. -/
def M_unit01 : ℕ → ℕ → ℚ := fun i j => if i = 0 ∧ j = 1 then 1 else 0

/-- Concrete model row for the worked example p = 0.55 under key `p_H`. -/
def mrow0 : Row := [("match_id", Cell.str "m1"), ("p_H", Cell.num (11 / 20))]

/-- Concrete model index holding `mrow0` under match id "m1". -/
def mpIdx0 : List (Cell × Row) := [(Cell.str "m1", mrow0)]

/-- Concrete best quote: 1X2 Home at decimal price 2.10 on match "m1". -/
def orow0 : Row :=
  [("match_id", Cell.str "m1"), ("market", Cell.str "1X2"),
   ("selection", Cell.str "Home"), ("price", Cell.num (21 / 10))]

/-- Concrete two-fixture frame (well-formed, full schema) used to exercise
the value-detection pipeline end to end. -/
def fxC9 : DataFrame :=
  ⟨["match_id", "league", "utc_kickoff", "home", "away"],
   [[("match_id", Cell.str "A"), ("league", Cell.str "L"),
     ("utc_kickoff", Cell.str "2026-01-02"), ("home", Cell.str "H1"),
     ("away", Cell.str "A1")],
    [("match_id", Cell.str "B"), ("league", Cell.str "L"),
     ("utc_kickoff", Cell.str "2026-01-01"), ("home", Cell.str "H2"),
     ("away", Cell.str "A2")]]⟩

def odC9 : DataFrame :=
  ⟨["match_id", "league", "utc_kickoff", "market", "selection", "price",
    "book", "home", "away"],
   [[("match_id", Cell.str "A"), ("league", Cell.str "L"),
     ("utc_kickoff", Cell.str "2026-01-02"), ("market", Cell.str "1X2"),
     ("selection", Cell.str "Home"), ("price", Cell.num 1),
     ("book", Cell.str "bk"), ("home", Cell.str "H1"), ("away", Cell.str "A1")],
    [("match_id", Cell.str "B"), ("league", Cell.str "L"),
     ("utc_kickoff", Cell.str "2026-01-01"), ("market", Cell.str "1X2"),
     ("selection", Cell.str "Home"), ("price", Cell.num 1),
     ("book", Cell.str "bk"), ("home", Cell.str "H2"), ("away", Cell.str "A2")]]⟩

def mdC9 : DataFrame :=
  ⟨["match_id", "p_H"],
   [[("match_id", Cell.str "A"), ("p_H", Cell.num 1)],
    [("match_id", Cell.str "B"), ("p_H", Cell.num 1)]]⟩

/-! ## Theorems -/

/-- `pymod` of an integer multiple of `1/2` by `1/2` vanishes: the recursive
calls of `_ah_cover_push_probs` always land on half/whole lines. -/
theorem pymod_int_half (n : ℤ) : pymod ((n : ℚ) / 2) (1 / 2) = 0 := by
  unfold pymod
  have h2 : ((n : ℚ) / 2) / (1 / 2) = (n : ℚ) := by ring
  rw [h2, Int.floor_intCast]
  ring

/-! ## 1X2 mass identities and Poisson bounds (for claim C1) -/

/-- The strict lower triangle, the diagonal and the strict upper triangle
partition the score matrix, so the three 1X2 probabilities sum exactly to the
total mass of the truncated matrix. -/
theorem hda_eq_total (M : ℕ → ℕ → α) (maxg : ℕ) :
    sum_tril M maxg + sum_trace M maxg + sum_triu M maxg = total_mass M maxg := by
  unfold sum_tril sum_trace sum_triu total_mass
  rw [← Finset.sum_add_distrib, ← Finset.sum_add_distrib]
  refine Finset.sum_congr rfl (fun i _ => ?_)
  rw [← Finset.sum_add_distrib, ← Finset.sum_add_distrib]
  refine Finset.sum_congr rfl (fun j _ => ?_)
  rcases Nat.lt_trichotomy j i with h | h | h
  · rw [if_pos h, if_neg (by omega), if_neg (by omega)]; ring
  · rw [if_neg (by omega), if_pos (by omega), if_neg (by omega)]; ring
  · rw [if_neg (by omega), if_neg (by omega), if_pos h]; ring

/-- Each truncated Poisson cell is nonnegative for a nonnegative rate. -/
theorem poisson_pmf_nonneg {lam : ℝ} (h : 0 ≤ lam) (k : ℕ) :
    0 ≤ poisson_pmf lam k := by
  unfold poisson_pmf
  apply div_nonneg
  · exact mul_nonneg (Real.exp_nonneg _) (pow_nonneg h k)
  · exact Nat.cast_nonneg _

/-- A truncated Poisson distribution has mass at most 1. -/
theorem poisson_sum_le_one {lam : ℝ} (h : 0 ≤ lam) (G : ℕ) :
    ∑ k ∈ Finset.range (G + 1), poisson_pmf lam k ≤ 1 := by
  unfold poisson_pmf
  have h1 : ∑ k ∈ Finset.range (G + 1), Real.exp (-lam) * lam ^ k / (Nat.factorial k)
      = Real.exp (-lam) * ∑ k ∈ Finset.range (G + 1), lam ^ k / (Nat.factorial k) := by
    rw [Finset.mul_sum]
    exact Finset.sum_congr rfl (fun k _ => by ring)
  rw [h1]
  calc Real.exp (-lam) * ∑ k ∈ Finset.range (G + 1), lam ^ k / (Nat.factorial k)
      ≤ Real.exp (-lam) * Real.exp lam :=
        mul_le_mul_of_nonneg_left (Real.sum_le_exp_of_nonneg h _) (Real.exp_nonneg _)
    _ = 1 := by rw [← Real.exp_add]; simp

/-- The mass of the truncated score matrix factors as the product of the two
truncated Poisson masses. -/
theorem total_mass_score (lh la : ℝ) (G : ℕ) :
    total_mass (score_matrix lh la G) G
      = (∑ i ∈ Finset.range (G + 1), poisson_pmf lh i)
        * (∑ j ∈ Finset.range (G + 1), poisson_pmf la j) := by
  unfold total_mass score_matrix
  rw [Finset.sum_mul_sum]

/-- C1 (amended): for all positive expected-goal rates and any goal cap, the
three 1X2 probabilities returned by `market_probs` (keys `p_H`, `p_D`, `p_A`,
the strict-lower-triangle sum, trace, and strict-upper-triangle sum of the
joint score matrix) sum exactly to the total probability mass of the truncated
matrix, and that mass is at most 1.  The sum is not in general within `1e-6`
of 1: the truncation deficit grows with the rates (see `counterexample_C1`). -/
theorem theorem_C1 (lh la : ℝ) (hlh : 0 < lh) (hla : 0 < la) (G : ℕ)
    (ou ah : List ℚ) :
    mp_lookup (market_probs lh la G ou ah) MKey.pH
        = some (sum_tril (score_matrix lh la G) G)
  ∧ mp_lookup (market_probs lh la G ou ah) MKey.pD
        = some (sum_trace (score_matrix lh la G) G)
  ∧ mp_lookup (market_probs lh la G ou ah) MKey.pA
        = some (sum_triu (score_matrix lh la G) G)
  ∧ sum_tril (score_matrix lh la G) G + sum_trace (score_matrix lh la G) G
        + sum_triu (score_matrix lh la G) G
      = total_mass (score_matrix lh la G) G
  ∧ total_mass (score_matrix lh la G) G ≤ 1 := by
  refine ⟨rfl, rfl, rfl, hda_eq_total _ _, ?_⟩
  rw [total_mass_score]
  exact mul_le_one₀ (poisson_sum_le_one hlh.le G)
    (Finset.sum_nonneg fun k _ => poisson_pmf_nonneg hla.le k)
    (poisson_sum_le_one hla.le G)

/-- Closed witness for `theorem_C1` at `λ_home = λ_away = 1`, `goal_cap = 5`. -/
theorem witness_C1 :
    (0 : ℝ) < 1
  ∧ (mp_lookup (market_probs 1 1 5 [] []) MKey.pH
        = some (sum_tril (score_matrix 1 1 5) 5)
  ∧ mp_lookup (market_probs 1 1 5 [] []) MKey.pD
        = some (sum_trace (score_matrix 1 1 5) 5)
  ∧ mp_lookup (market_probs 1 1 5 [] []) MKey.pA
        = some (sum_triu (score_matrix 1 1 5) 5)
  ∧ sum_tril (score_matrix 1 1 5) 5 + sum_trace (score_matrix 1 1 5) 5
        + sum_triu (score_matrix 1 1 5) 5
      = total_mass (score_matrix 1 1 5) 5
  ∧ total_mass (score_matrix 1 1 5) 5 ≤ 1) :=
  ⟨one_pos, theorem_C1 1 1 one_pos one_pos 5 [] []⟩

/-- C1 (counterexample to the claim as stated): with `λ_home = λ_away = 10`
and `goal_cap = 5` (which satisfies `goal_cap ≥ 5`), the three 1X2
probabilities returned by `market_probs` do not sum to 1 within `1e-6`; the
truncated matrix retains well under one percent of the mass. -/
theorem counterexample_C1 :
    mp_lookup (market_probs 10 10 5 [] []) MKey.pH
        = some (sum_tril (score_matrix 10 10 5) 5)
  ∧ mp_lookup (market_probs 10 10 5 [] []) MKey.pD
        = some (sum_trace (score_matrix 10 10 5) 5)
  ∧ mp_lookup (market_probs 10 10 5 [] []) MKey.pA
        = some (sum_triu (score_matrix 10 10 5) 5)
  ∧ ¬ (|sum_tril (score_matrix 10 10 5) 5 + sum_trace (score_matrix 10 10 5) 5
        + sum_triu (score_matrix 10 10 5) 5 - 1| ≤ 1e-6) := by
  refine ⟨rfl, rfl, rfl, ?_⟩
  rw [hda_eq_total, total_mass_score]
  have hS : ∑ k ∈ Finset.range (5 + 1), poisson_pmf 10 k
      = Real.exp (-10) * (4433 / 3) := by
    unfold poisson_pmf
    have h1 : ∑ k ∈ Finset.range (5 + 1),
          Real.exp (-10) * (10 : ℝ) ^ k / (Nat.factorial k)
        = Real.exp (-10) * ∑ k ∈ Finset.range (5 + 1),
            (10 : ℝ) ^ k / (Nat.factorial k) := by
      rw [Finset.mul_sum]
      exact Finset.sum_congr rfl (fun k _ => by ring)
    rw [h1]
    congr 1
    norm_num [Finset.sum_range_succ, Nat.factorial]
  rw [hS]
  have hterm : (20 : ℝ) ^ 11 / (Nat.factorial 11)
      ≤ ∑ i ∈ Finset.range 12, (20 : ℝ) ^ i / (Nat.factorial i) := by
    apply Finset.single_le_sum (f := fun i => (20 : ℝ) ^ i / (Nat.factorial i))
    · intro i _
      positivity
    · simp
  have hexp : (20 : ℝ) ^ 11 / (Nat.factorial 11) ≤ Real.exp 20 :=
    hterm.trans (Real.sum_le_exp_of_nonneg (by norm_num) 12)
  have hx : Real.exp (-10) * (4433 / 3) * (Real.exp (-10) * (4433 / 3))
      = Real.exp (-20) * ((4433 : ℝ) / 3) ^ 2 := by
    rw [show (-20 : ℝ) = -10 + -10 by norm_num, Real.exp_add]
    ring
  rw [hx]
  have h2 : ((4433 : ℝ) / 3) ^ 2 < (1 - 1e-6) * Real.exp 20 := by
    have h3 : (1 - 1e-6 : ℝ) * ((20 : ℝ) ^ 11 / (Nat.factorial 11))
        ≤ (1 - 1e-6) * Real.exp 20 :=
      mul_le_mul_of_nonneg_left hexp (by norm_num)
    refine lt_of_lt_of_le ?_ h3
    norm_num [Nat.factorial]
  have hlt : Real.exp (-20) * ((4433 : ℝ) / 3) ^ 2 < 1 - 1e-6 := by
    have hform : Real.exp (-20) * ((4433 : ℝ) / 3) ^ 2
        = ((4433 : ℝ) / 3) ^ 2 / Real.exp 20 := by
      rw [Real.exp_neg]
      ring
    rw [hform, div_lt_iff₀ (Real.exp_pos 20)]
    linarith [h2]
  intro habs
  have h4 : (1 : ℝ) - Real.exp (-20) * ((4433 : ℝ) / 3) ^ 2
      ≤ |Real.exp (-20) * ((4433 : ℝ) / 3) ^ 2 - 1| := by
    rw [abs_sub_comm]
    exact le_abs_self _
  linarith

/-! ## Quarter-line decomposition (claim C8) and the AH away-side slip (C4) -/

theorem floor_half_q : ⌊(1 / 2 : ℚ)⌋ = 0 := by
  rw [Int.floor_eq_iff]
  norm_num

theorem ceil_half_q : ⌈(1 / 2 : ℚ)⌉ = 1 := by
  rw [Int.ceil_eq_iff]
  norm_num

set_option maxHeartbeats 2000000 in
/-- Unfolding of `ah_cover_push_probs` on a quarter line (the float test
`abs(home_line % 0.5) > 1e-9` succeeds): the half-stake split over the two
adjacent lines. -/
theorem ah_cover_push_probs_quarter (M : ℕ → ℕ → α) (maxg : ℕ) (L : ℚ)
    (hq : (1e-9 : ℚ) < |pymod L (1 / 2)|) :
    ah_cover_push_probs M maxg L
      = (((ah_cover_push_probs M maxg ((⌊L * 2⌋ : ℚ) / 2)).1
          + (ah_cover_push_probs M maxg ((⌈L * 2⌉ : ℚ) / 2)).1) / 2,
         ((ah_cover_push_probs M maxg ((⌊L * 2⌋ : ℚ) / 2)).2
          + (ah_cover_push_probs M maxg ((⌈L * 2⌉ : ℚ) / 2)).2) / 2) := by
  conv_lhs => rw [ah_cover_push_probs.eq_def]
  rw [if_pos hq]

set_option maxHeartbeats 2000000 in
/-- Unfolding of `ah_cover_push_probs` on a non-quarter line: whole lines push
on `diff = round L` and cover on `diff > round L`; half lines cover on
`diff > L` with no push. -/
theorem ah_cover_push_probs_base (M : ℕ → ℕ → α) (maxg : ℕ) (L : ℚ)
    (hq : ¬ (1e-9 : ℚ) < |pymod L (1 / 2)|) :
    ah_cover_push_probs M maxg L
      = if |L - round L| < 1e-9 then
          (prob_diff M maxg (fun d => decide (round L < d)),
           prob_diff M maxg (fun d => decide (d = round L)))
        else
          (prob_diff M maxg (fun d => decide (L < (d : ℚ))), 0) := by
  conv_lhs => rw [ah_cover_push_probs.eq_def]
  rw [if_neg hq]

/-- C8: for every joint score table `M` and every quarter line
`L = (2k+1)/4` (an integer ± 0.25 or ± 0.75), the Asian-handicap cover and
push probabilities at `L` are exactly the arithmetic means of those at the two
adjacent lines `L - 1/4` and `L + 1/4`, and those two adjacent lines are the
half/whole lines `k/2` and `(k+1)/2` — never quarter lines — so the recursion
terminates after exactly one level. -/
theorem theorem_C8 (M : ℕ → ℕ → ℚ) (maxg : ℕ) (L : ℚ) (k : ℤ)
    (hL : L = (2 * k + 1) / 4) :
    ah_cover_push_probs M maxg L
      = (((ah_cover_push_probs M maxg (L - 1 / 4)).1
          + (ah_cover_push_probs M maxg (L + 1 / 4)).1) / 2,
         ((ah_cover_push_probs M maxg (L - 1 / 4)).2
          + (ah_cover_push_probs M maxg (L + 1 / 4)).2) / 2)
  ∧ L - 1 / 4 = (k : ℚ) / 2
  ∧ L + 1 / 4 = ((k + 1 : ℤ) : ℚ) / 2
  ∧ pymod (L - 1 / 4) (1 / 2) = 0
  ∧ pymod (L + 1 / 4) (1 / 2) = 0 := by
  have hlo : L - 1 / 4 = (k : ℚ) / 2 := by rw [hL]; ring
  have hhi : L + 1 / 4 = ((k + 1 : ℤ) : ℚ) / 2 := by rw [hL]; push_cast; ring
  have hq : (1e-9 : ℚ) < |pymod L (1 / 2)| := by
    have hm : pymod L (1 / 2) = 1 / 4 := by
      unfold pymod
      have hdiv : L / (1 / 2) = (k : ℚ) + 1 / 2 := by rw [hL]; ring
      rw [hdiv, Int.floor_int_add, floor_half_q, hL]
      push_cast
      ring
    rw [hm]
    rw [abs_of_pos (by norm_num)]
    norm_num
  have hfloor : (⌊L * 2⌋ : ℚ) / 2 = L - 1 / 4 := by
    have h1 : L * 2 = (k : ℚ) + 1 / 2 := by rw [hL]; ring
    rw [h1, Int.floor_int_add, floor_half_q, hL]
    push_cast
    ring
  have hceil : (⌈L * 2⌉ : ℚ) / 2 = L + 1 / 4 := by
    have h1 : L * 2 = 1 / 2 + (k : ℚ) := by rw [hL]; ring
    rw [h1, Int.ceil_add_int, ceil_half_q, hL]
    push_cast
    ring
  refine ⟨?_, hlo, hhi, ?_, ?_⟩
  · rw [ah_cover_push_probs_quarter M maxg L hq, hfloor, hceil]
  · rw [hlo]
    exact pymod_int_half k
  · rw [hhi]
    exact pymod_int_half (k + 1)

/-- Closed witness for `theorem_C8`: the quarter line `L = -3/4` with the
uniform unit table on a `2 × 2` score grid. -/
theorem witness_C8 :
    (-3 / 4 : ℚ) = (2 * (-2) + 1) / 4
  ∧ (ah_cover_push_probs (fun _ _ => (1 : ℚ)) 1 (-3 / 4)
      = (((ah_cover_push_probs (fun _ _ => (1 : ℚ)) 1 (-3 / 4 - 1 / 4)).1
          + (ah_cover_push_probs (fun _ _ => (1 : ℚ)) 1 (-3 / 4 + 1 / 4)).1) / 2,
         ((ah_cover_push_probs (fun _ _ => (1 : ℚ)) 1 (-3 / 4 - 1 / 4)).2
          + (ah_cover_push_probs (fun _ _ => (1 : ℚ)) 1 (-3 / 4 + 1 / 4)).2) / 2)
  ∧ (-3 / 4 : ℚ) - 1 / 4 = ((-2 : ℤ) : ℚ) / 2
  ∧ (-3 / 4 : ℚ) + 1 / 4 = ((-2 + 1 : ℤ) : ℚ) / 2
  ∧ pymod ((-3 / 4 : ℚ) - 1 / 4) (1 / 2) = 0
  ∧ pymod ((-3 / 4 : ℚ) + 1 / 4) (1 / 2) = 0) :=
  ⟨by norm_num, theorem_C8 (fun _ _ => (1 : ℚ)) 1 (-3 / 4) (-2) (by norm_num)⟩

theorem pymod_one_half : pymod (1 : ℚ) (1 / 2) = 0 := by
  have h := pymod_int_half 2
  norm_num at h
  exact h

theorem pymod_negone_half : pymod (-1 : ℚ) (1 / 2) = 0 := by
  have h := pymod_int_half (-2)
  norm_num at h
  exact h

/-- Evaluation of the AH cover/push pair of `M_unit01` at the whole home line
`L = 1`: cover is `P(diff > 1) = 0`, push is `P(diff = 1) = 0`. -/
theorem ah_M_unit01_one : ah_cover_push_probs M_unit01 1 1 = (0, 0) := by
  rw [ah_cover_push_probs_base M_unit01 1 1 (by rw [pymod_one_half]; norm_num)]
  rw [if_pos (by rw [round_one]; norm_num)]
  rw [round_one]
  unfold prob_diff M_unit01
  norm_num [Finset.sum_range_succ]

/-- Evaluation at the negated line `L = -1` (the value the code reports as the
away-side cover probability for away line `-1`): cover `P(diff > -1) = 0`, push `P(diff = -1) = 1`. -/
theorem ah_M_unit01_negone : ah_cover_push_probs M_unit01 1 (-1) = (0, 1) := by
  rw [ah_cover_push_probs_base M_unit01 1 (-1) (by rw [pymod_negone_half]; norm_num)]
  have hr : round (-1 : ℚ) = -1 := by
    have h := round_intCast (α := ℚ) (-1)
    norm_num at h
    exact h
  rw [if_pos (by rw [hr]; norm_num)]
  rw [hr]
  unfold prob_diff M_unit01
  norm_num [Finset.sum_range_succ]

/-- C4 (code_bug evidence): on the joint table `M_unit01` with home line
`L = 1`, `market_probs` reports home cover `P(diff > 1) = 0`, push
`P(diff = 1) = 0`, and — as the away cover for line `-1` — the value
`P(diff > -1) = 0` computed by re-running the same diff comparison at the
negated line.  Their sum is 0, not the total mass 1: the claimed partition
"home cover + push + away cover = total" fails, because the correct away
cover mass `P(diff < 1)` here is 1.  The negated-line recomputation flips the
line but not the sign of `diff`, so it does not produce the away-side cover
probability the code's own comments promise. -/
theorem theorem_C4 :
    (ah_cover_push_probs M_unit01 1 1).1 = 0
  ∧ (ah_cover_push_probs M_unit01 1 1).2 = 0
  ∧ (ah_cover_push_probs M_unit01 1 (-1)).1 = 0
  ∧ mp_lookup (market_probs_table M_unit01 1 [] [1]) (MKey.pAHaway (-1))
      = some ((ah_cover_push_probs M_unit01 1 (-1)).1)
  ∧ mp_lookup (market_probs_table M_unit01 1 [] [1]) (MKey.pAHhome 1)
      = some ((ah_cover_push_probs M_unit01 1 1).1)
  ∧ total_mass M_unit01 1 = 1
  ∧ prob_diff M_unit01 1 (fun d => decide (d < 1)) = 1
  ∧ (ah_cover_push_probs M_unit01 1 1).1 + (ah_cover_push_probs M_unit01 1 1).2
      + (ah_cover_push_probs M_unit01 1 (-1)).1
    ≠ total_mass M_unit01 1 := by
  have e1 := ah_M_unit01_one
  have e2 := ah_M_unit01_negone
  have htot : total_mass M_unit01 1 = 1 := by
    unfold total_mass M_unit01
    norm_num [Finset.sum_range_succ]
  refine ⟨by rw [e1], by rw [e1], by rw [e2], rfl, rfl, htot, ?_, ?_⟩
  · unfold prob_diff M_unit01
    norm_num [Finset.sum_range_succ]
  · rw [e1, e2, htot]
    norm_num

/-! ## Absence of BTTS keys (claim C2) -/

omit [LinearOrderedField α] in
theorem mp_lookup_eq_none {l : List (MKey × α)} {k : MKey}
    (h : ∀ p ∈ l, p.1 ≠ k) : mp_lookup l k = none := by
  induction l with
  | nil => rfl
  | cons p ps ih =>
    unfold mp_lookup
    rw [if_neg (h p (List.mem_cons_self p ps))]
    exact ih (fun q hq => h q (List.mem_cons_of_mem p hq))

/-- C2 (amended): `market_probs` never emits a both-teams-to-score
probability: for every input, neither the `p_BTTS_Yes` nor the `p_BTTS_No`
key is present in its output (the output holds only 1X2, Over/Under and
Asian-handicap keys).  The claimed inclusion–exclusion BTTS pair exists only
in the schema comment of markets.py; no code computes or consumes it. -/
theorem theorem_C2 (lh la : ℝ) (maxg : ℕ) (ou ah : List ℚ) :
    mp_lookup (market_probs lh la maxg ou ah) MKey.pBTTSYes = none
  ∧ mp_lookup (market_probs lh la maxg ou ah) MKey.pBTTSNo = none := by
  constructor <;>
  · apply mp_lookup_eq_none
    intro p hp
    unfold market_probs market_probs_table at hp
    simp only [List.mem_append, List.mem_flatMap, List.mem_cons,
      List.not_mem_nil, or_false] at hp
    rcases hp with (hp | hp) | hp
    · rcases hp with h | h | h <;> subst h <;> simp
    · rcases hp with ⟨L, _, h | h⟩ <;> subst h <;> simp
    · rcases hp with ⟨L, _, h | h⟩ <;> subst h <;> simp

/-- C2 (counterexample to the claim as stated): at the repository's default
parameters (`λ_home = 1.45`, `λ_away = 1.25`, `goal_cap = 7`, the single
Over/Under line 2.5, no AH lines), the output of `market_probs` contains no
BTTS probability at all. -/
theorem counterexample_C2 :
    mp_lookup (market_probs 1.45 1.25 7 [5 / 2] []) MKey.pBTTSYes = none
  ∧ mp_lookup (market_probs 1.45 1.25 7 [5 / 2] []) MKey.pBTTSNo = none :=
  ⟨rfl, rfl⟩

/-! ## Stake sizing (claim C6) -/

theorem round_half_even_intCast (n : ℤ) : round_half_even ((n : ℚ)) = n := by
  unfold round_half_even
  rw [Int.floor_intCast]
  rw [if_pos (by norm_num)]

/-- C6: the stake fraction is zero (without raising) when the net odds
`b = price - 1` are nonpositive, and otherwise equals
`clamp(0.5 * max 0 ((b*p - (1-p))/b), min_pct, max_pct)`; the stake amount is
the bankroll times that fraction, rounded to two decimals.  At
`p = 0.55, price = 2.10, bankroll = 500, min_pct = 0.0025, max_pct = 0.025`
the fraction clamps to `0.025` and the amount is `12.50`. -/
theorem theorem_C6 :
    (∀ (s : StakeSizer) (p price : ℚ), 0 ≤ p → p ≤ 1 → price - 1 ≤ 0 →
      kelly_half s p price = 0)
  ∧ (∀ (s : StakeSizer) (p price : ℚ), 0 ≤ p → p ≤ 1 → 0 < price - 1 →
      kelly_half s p price
        = min (max (1 / 2 * max 0 (((price - 1) * p - (1 - p)) / (price - 1)))
            s.min_pct) s.max_pct)
  ∧ kelly_half ⟨500, 1 / 400, 1 / 40⟩ (11 / 20) (21 / 10) = 1 / 40
  ∧ round2 ((500 : ℚ) * (1 / 40)) = 25 / 2
  ∧ (stake_apply ⟨500, 1 / 400, 1 / 40⟩
       ⟨PICK_COLS,
        [[("model_prob", Cell.num (11 / 20)), ("price", Cell.num (21 / 10)),
          ("stake_pct", Cell.str ""), ("stake_amt", Cell.str "")]]⟩).rows
      = [[("model_prob", Cell.num (11 / 20)), ("price", Cell.num (21 / 10)),
          ("stake_pct", Cell.num (1 / 40)), ("stake_amt", Cell.num (25 / 2))]] := by
  have hk : kelly_half ⟨500, 1 / 400, 1 / 40⟩ (11 / 20) (21 / 10) = 1 / 40 := by
    unfold kelly_half
    rw [if_neg (by norm_num)]
    norm_num [min_def, max_def]
  have hr2 : round2 ((500 : ℚ) * (1 / 40)) = 25 / 2 := by
    have h : (500 : ℚ) * (1 / 40) * 100 = ((1250 : ℤ) : ℚ) := by norm_num
    unfold round2
    rw [h, round_half_even_intCast]
    norm_num
  refine ⟨?_, ?_, hk, hr2, ?_⟩
  · intro s p price _ _ hb
    unfold kelly_half
    rw [if_pos hb]
  · intro s p price _ _ hb
    unfold kelly_half
    rw [if_neg (not_le.mpr hb)]
    show ((0 ⊔ ((price - 1) * p - (1 - p)) / (price - 1)) * 0.5 ⊔ s.min_pct) ⊓ s.max_pct
        = (1 / 2 * (0 ⊔ ((price - 1) * p - (1 - p)) / (price - 1)) ⊔ s.min_pct) ⊓ s.max_pct
    rw [mul_comm]
    norm_num
  · simp only [stake_apply, List.isEmpty_cons, Bool.false_eq_true, if_false,
      List.map_cons, List.map_nil]
    simp only [row_float0, row_get, String.reduceEq, reduceIte]
    rw [hk, hr2]
    simp [set_col, row_get]

/-- Closed witness for `theorem_C6` discharging the hypotheses of its two
universally quantified conjuncts at concrete inputs. -/
theorem witness_C6 :
    kelly_half ⟨500, 1 / 400, 1 / 40⟩ (11 / 20) (1 / 2) = 0
  ∧ kelly_half ⟨500, 1 / 400, 1 / 40⟩ (11 / 20) (21 / 10)
      = min (max (1 / 2 * max 0 ((((21 : ℚ) / 10 - 1) * (11 / 20) - (1 - 11 / 20))
          / (21 / 10 - 1))) ((1 : ℚ) / 400)) ((1 : ℚ) / 40) :=
  ⟨theorem_C6.1 ⟨500, 1 / 400, 1 / 40⟩ (11 / 20) (1 / 2) (by norm_num)
      (by norm_num) (by norm_num),
   theorem_C6.2.1 ⟨500, 1 / 400, 1 / 40⟩ (11 / 20) (21 / 10) (by norm_num)
      (by norm_num) (by norm_num)⟩

/-! ## Model-probability resolution and the value filter (claims C3, C5) -/

theorem edge_val_none (price : Option Cell) : edge_val none price = none := by
  unfold edge_val
  cases implied_prob price <;> rfl

/-- C3 (amended): 1X2 quotes read `p_H`/`p_D`/`p_A` with a default of 0.0
when the key is absent; Over/Under quotes read the exact key
`p_OU{line}_{selection}` and are skipped when it is absent; Asian-handicap
quotes use the 1X2 `p_H`/`p_A` probabilities as a proxy, ignoring the line;
quotes with an unrecognized market are skipped; and whenever the resolution
yields no probability the quote produces no pick and no error. -/
theorem theorem_C3 :
    (∀ (mrow : Row) (market : String), market ≠ "1X2" →
      str_starts market "OU" = false → str_starts market "AH" = true →
      extract_model_prob mrow market "Home" = some (row_float0 mrow "p_H")
      ∧ extract_model_prob mrow market "Away" = some (row_float0 mrow "p_A"))
  ∧ (∀ (mrow : Row) (market sel : String), market ≠ "1X2" →
      str_starts market "OU" = true →
      extract_model_prob mrow market sel
        = Option.bind (row_get mrow ("p_OU" ++ market.drop 2 ++ "_" ++ sel))
            cell_float)
  ∧ (∀ (mrow : Row) (market sel : String), market ≠ "1X2" →
      str_starts market "OU" = false → str_starts market "AH" = false →
      extract_model_prob mrow market sel = none)
  ∧ (∀ (idx : List (Cell × Row)) (t : ℚ) (orow mrow : Row),
      dict_get_last idx (row_get orow "match_id") = some mrow →
      extract_model_prob mrow (cell_str (row_getD orow "market" (Cell.str "")))
        (cell_str (row_getD orow "selection" (Cell.str ""))) = none →
      process_quote idx t orow = none) := by
  refine ⟨?_, ?_, ?_, ?_⟩
  · intro mrow market h1 h2 h3
    constructor <;> simp [extract_model_prob, h1, h2, h3]
  · intro mrow market sel h1 h2
    cases hv : row_get mrow ("p_OU" ++ market.drop 2 ++ "_" ++ sel) <;>
      simp [extract_model_prob, h1, h2, hv]
  · intro mrow market sel h1 h2 h3
    simp [extract_model_prob, h1, h2, h3]
  · intro idx t orow mrow hm hn
    simp only [process_quote, hm]
    rw [hn, edge_val_none]

/-- Closed witness for `theorem_C3` at an AH quote and at a skip. -/
theorem witness_C3 :
    ("AH+1" : String) ≠ "1X2"
  ∧ str_starts "AH+1" "OU" = false
  ∧ str_starts "AH+1" "AH" = true
  ∧ extract_model_prob [("p_H", Cell.num (3 / 10))] "AH+1" "Home"
      = some (row_float0 [("p_H", Cell.num (3 / 10))] "p_H") :=
  ⟨by decide, by decide, by decide,
   (theorem_C3.1 [("p_H", Cell.num (3 / 10))] "AH+1" (by decide) (by decide)
     (by decide)).1⟩

/-- C3 (counterexample to the claim as stated): an Asian-handicap quote does
not use the probability stored under its own (market, selection, line) key:
with `p_H = 0.2` and an AH-specific cover probability 0.9 in the model row,
the quote (market "AH-0.5", selection "Home") resolves to 0.2, the 1X2 proxy.
Moreover a 1X2 quote whose model key is absent is not skipped: it resolves to
the default probability 0.0. -/
theorem counterexample_C3 :
    extract_model_prob
      [("match_id", Cell.str "m"), ("p_H", Cell.num (1 / 5)),
       ("p_AH_home_-0.5", Cell.num (9 / 10))] "AH-0.5" "Home" = some (1 / 5)
  ∧ (1 / 5 : ℚ) ≠ 9 / 10
  ∧ extract_model_prob [("match_id", Cell.str "m")] "1X2" "Home" = some 0 := by
  refine ⟨?_, by norm_num, ?_⟩
  · simp [extract_model_prob, row_float0, row_get, str_starts]
  · simp [extract_model_prob, row_float0, row_get]

/-- C5: a candidate quote (one that reaches the loop with a resolvable model
probability and a valid price) becomes a pick if and only if its edge — the
model probability minus the implied probability `1/price` — is at least
`edge_threshold`.  At model probability 0.55 and price 2.10 the edge is
exactly `31/420 ≈ 0.0738`: accepted at threshold 0.05, rejected at 0.08. -/
theorem theorem_C5 :
    (∀ (idx : List (Cell × Row)) (t : ℚ) (orow mrow : Row) (e : ℚ),
      dict_get_last idx (row_get orow "match_id") = some mrow →
      edge_val
        (extract_model_prob mrow (cell_str (row_getD orow "market" (Cell.str "")))
          (cell_str (row_getD orow "selection" (Cell.str ""))))
        (row_get orow "price") = some e →
      ((process_quote idx t orow).isSome = true ↔ t ≤ e))
  ∧ (∀ (mp q : ℚ), q ≠ 0 →
      edge_val (some mp) (some (Cell.num q)) = some (mp - 1 / q))
  ∧ edge_val (some (11 / 20)) (some (Cell.num (21 / 10))) = some (31 / 420)
  ∧ (process_quote mpIdx0 (1 / 20) orow0).isSome = true
  ∧ process_quote mpIdx0 (2 / 25) orow0 = none := by
  have main : ∀ (idx : List (Cell × Row)) (t : ℚ) (orow mrow : Row) (e : ℚ),
      dict_get_last idx (row_get orow "match_id") = some mrow →
      edge_val
        (extract_model_prob mrow (cell_str (row_getD orow "market" (Cell.str "")))
          (cell_str (row_getD orow "selection" (Cell.str ""))))
        (row_get orow "price") = some e →
      ((process_quote idx t orow).isSome = true ↔ t ≤ e) := by
    intro idx t orow mrow e hm he
    constructor
    · intro hs
      rw [Option.isSome_iff_exists] at hs
      obtain ⟨r, hr⟩ := hs
      simp only [process_quote, hm, he] at hr
      by_contra hlt
      rw [if_pos (not_le.mp hlt)] at hr
      cases hr
    · intro ht
      simp only [process_quote, hm, he]
      rw [if_neg (not_lt.mpr ht)]
      rfl
  have hm0 : dict_get_last mpIdx0 (row_get orow0 "match_id") = some mrow0 := by
    simp [dict_get_last, mpIdx0, orow0, mrow0, row_get, List.find?]
  have he0 : edge_val
      (extract_model_prob mrow0 (cell_str (row_getD orow0 "market" (Cell.str "")))
        (cell_str (row_getD orow0 "selection" (Cell.str ""))))
      (row_get orow0 "price") = some (31 / 420) := by
    simp [edge_val, implied_prob, extract_model_prob, cell_str, row_getD,
      row_get, row_float0, orow0, mrow0]
    norm_num
  refine ⟨main, ?_, ?_, ?_, ?_⟩
  · intro mp q hq
    simp [edge_val, implied_prob, hq]
  · norm_num [edge_val, implied_prob]
  · exact (main mpIdx0 (1 / 20) orow0 mrow0 (31 / 420) hm0 he0).mpr (by norm_num)
  · have h2 : ¬ ((process_quote mpIdx0 (2 / 25) orow0).isSome = true) := by
      rw [main mpIdx0 (2 / 25) orow0 mrow0 (31 / 420) hm0 he0]
      norm_num
    rw [← Option.not_isSome_iff_eq_none]
    simpa using h2

/-- Closed witness for `theorem_C5` discharging the hypotheses of its first
conjunct at the worked example. -/
theorem witness_C5 :
    ((process_quote mpIdx0 (1 / 20) orow0).isSome = true ↔ (1 / 20 : ℚ) ≤ 31 / 420) := by
  refine theorem_C5.1 mpIdx0 (1 / 20) orow0 mrow0 (31 / 420) ?_ ?_
  · simp [dict_get_last, mpIdx0, orow0, mrow0, row_get, List.find?]
  · simp [edge_val, implied_prob, extract_model_prob, cell_str, row_getD,
      row_get, row_float0, orow0, mrow0]
    norm_num

/-! ## Sorting and reconciliation lemmas (claim C7) -/

theorem insert_ord_mem {β : Type} (le : β → β → Bool) (r x : β) (l : List β) :
    x ∈ insert_ord le r l ↔ x = r ∨ x ∈ l := by
  induction l with
  | nil => simp [insert_ord]
  | cons y ys ih =>
    unfold insert_ord
    by_cases h : le y r = true
    · rw [if_pos h]
      simp only [List.mem_cons, ih]
      tauto
    · rw [if_neg h]
      simp only [List.mem_cons]

theorem sort_ord_mem_aux {β : Type} (le : β → β → Bool) (l : List β) :
    ∀ (acc : List β) (x : β),
      (x ∈ List.foldl (fun acc r => insert_ord le r acc) acc l ↔ x ∈ acc ∨ x ∈ l) := by
  induction l with
  | nil => intro acc x; simp
  | cons y ys ih =>
    intro acc x
    rw [List.foldl_cons, ih, insert_ord_mem]
    simp only [List.mem_cons]
    tauto

theorem sort_ord_mem {β : Type} (le : β → β → Bool) (l : List β) (x : β) :
    x ∈ sort_ord le l ↔ x ∈ l := by
  unfold sort_ord
  rw [sort_ord_mem_aux]
  simp

theorem insert_ord_pairwise {β : Type} (le : β → β → Bool)
    (htot : ∀ a b, le a b = true ∨ le b a = true)
    (htrans : ∀ a b c, le a b = true → le b c = true → le a c = true)
    (r : β) (l : List β) (h : l.Pairwise (fun a b => le a b = true)) :
    (insert_ord le r l).Pairwise (fun a b => le a b = true) := by
  induction l with
  | nil => simp [insert_ord]
  | cons y ys ih =>
    rcases List.pairwise_cons.mp h with ⟨hy, hys⟩
    unfold insert_ord
    by_cases hle : le y r = true
    · rw [if_pos hle]
      refine List.pairwise_cons.mpr ⟨?_, ih hys⟩
      intro z hz
      rcases (insert_ord_mem le r z ys).mp hz with rfl | hz'
      · exact hle
      · exact hy z hz'
    · rw [if_neg hle]
      refine List.pairwise_cons.mpr ⟨?_, h⟩
      intro z hz
      have hry : le r y = true := (htot y r).resolve_left hle
      rcases List.mem_cons.mp hz with rfl | hz'
      · exact hry
      · exact htrans r y z hry (hy z hz')

theorem sort_ord_pairwise_aux {β : Type} (le : β → β → Bool)
    (htot : ∀ a b, le a b = true ∨ le b a = true)
    (htrans : ∀ a b c, le a b = true → le b c = true → le a c = true)
    (l : List β) :
    ∀ (acc : List β), acc.Pairwise (fun a b => le a b = true) →
      (List.foldl (fun acc r => insert_ord le r acc) acc l).Pairwise
        (fun a b => le a b = true) := by
  induction l with
  | nil => intro acc h; simpa using h
  | cons y ys ih =>
    intro acc h
    rw [List.foldl_cons]
    exact ih _ (insert_ord_pairwise le htot htrans y acc h)

theorem sort_ord_pairwise {β : Type} (le : β → β → Bool)
    (htot : ∀ a b, le a b = true ∨ le b a = true)
    (htrans : ∀ a b c, le a b = true → le b c = true → le a c = true)
    (l : List β) :
    (sort_ord le l).Pairwise (fun a b => le a b = true) :=
  sort_ord_pairwise_aux le htot htrans l [] (List.Pairwise.nil)

theorem col_desc_le_total (c : String) (a b : Row) :
    col_desc_le c a b = true ∨ col_desc_le c b a = true := by
  unfold col_desc_le
  cases ha : col_num a c <;> cases hb : col_num b c <;> simp
  exact le_total _ _

theorem col_desc_le_trans (c : String) (a b d : Row)
    (h1 : col_desc_le c a b = true) (h2 : col_desc_le c b d = true) :
    col_desc_le c a d = true := by
  unfold col_desc_le at h1 h2 ⊢
  cases ha : col_num a c <;> cases hb : col_num b c <;> cases hd : col_num d c <;>
    simp_all
  exact le_trans h2 h1

theorem drop_dups_first_subset
    (key : Row → Option Cell × Option Cell × Option Cell) :
    ∀ (l : List Row) (seen : List (Option Cell × Option Cell × Option Cell))
      (q : Row), q ∈ drop_dups_first key l seen → q ∈ l := by
  intro l
  induction l with
  | nil => intro seen q h; cases h
  | cons r rs ih =>
    intro seen q h
    unfold drop_dups_first at h
    by_cases hs : key r ∈ seen
    · rw [if_pos hs] at h
      exact List.mem_cons_of_mem r (ih seen q h)
    · rw [if_neg hs] at h
      rcases List.mem_cons.mp h with rfl | h'
      · exact List.mem_cons_self _ _
      · exact List.mem_cons_of_mem r (ih _ q h')

theorem drop_dups_first_not_seen
    (key : Row → Option Cell × Option Cell × Option Cell) :
    ∀ (l : List Row) (seen : List (Option Cell × Option Cell × Option Cell))
      (q : Row), q ∈ drop_dups_first key l seen → key q ∉ seen := by
  intro l
  induction l with
  | nil => intro seen q h; cases h
  | cons r rs ih =>
    intro seen q h
    unfold drop_dups_first at h
    by_cases hs : key r ∈ seen
    · rw [if_pos hs] at h
      exact ih seen q h
    · rw [if_neg hs] at h
      rcases List.mem_cons.mp h with rfl | h'
      · exact hs
      · intro hcontra
        exact ih _ q h' (List.mem_cons_of_mem _ hcontra)

theorem drop_dups_first_best (le : Row → Row → Bool)
    (key : Row → Option Cell × Option Cell × Option Cell) :
    ∀ (l : List Row) (seen : List (Option Cell × Option Cell × Option Cell))
      (q : Row), l.Pairwise (fun a b => le a b = true) →
      q ∈ drop_dups_first key l seen →
      ∀ q' ∈ l, key q' = key q → q' = q ∨ le q q' = true := by
  intro l
  induction l with
  | nil => intro seen q _ h; cases h
  | cons r rs ih =>
    intro seen q hp hq q' hq' hk
    rcases List.pairwise_cons.mp hp with ⟨hr, hrs⟩
    unfold drop_dups_first at hq
    by_cases hs : key r ∈ seen
    · rw [if_pos hs] at hq
      rcases List.mem_cons.mp hq' with rfl | hq''
      · exact absurd (hk ▸ hs) (drop_dups_first_not_seen key rs seen q hq)
      · exact ih seen q hrs hq q' hq'' hk
    · rw [if_neg hs] at hq
      rcases List.mem_cons.mp hq with rfl | hq2
      · rcases List.mem_cons.mp hq' with rfl | hq''
        · exact Or.inl rfl
        · exact Or.inr (hr q' hq'')
      · have hnotseen := drop_dups_first_not_seen key rs (key r :: seen) q hq2
        rcases List.mem_cons.mp hq' with rfl | hq''
        · exact absurd (hk ▸ List.mem_cons_self _ _) hnotseen
        · exact ih _ q hrs hq2 q' hq'' hk

/-- C7 (amended): every reconciled BestQuote row is one of the input quote
rows, and its price is maximal within its (match_id, market, selection)
group under the descending-price order that places missing prices last.
Quotes with price at or below 1.0 are not excluded and can win their group. -/
theorem theorem_C7 (odds : List Row) (q : Row)
    (hq : q ∈ best_price_per_sig odds) :
    q ∈ odds
  ∧ ∀ q' ∈ odds, sig_of q' = sig_of q →
      q' = q ∨ col_desc_le "price" q q' = true := by
  unfold best_price_per_sig at hq
  constructor
  · exact (sort_ord_mem _ odds q).mp
      (drop_dups_first_subset sig_of _ [] q hq)
  · intro q' hq' hk
    exact drop_dups_first_best (col_desc_le "price") sig_of
      (sort_ord (col_desc_le "price") odds) [] q
      (sort_ord_pairwise _ (col_desc_le_total "price") (col_desc_le_trans "price") odds)
      hq q' ((sort_ord_mem _ odds q').mpr hq') hk

/-- Closed witness for `theorem_C7`: of two quotes on the same outcome at
prices 2 and 3, the reconciled row is the price-3 quote. -/
theorem witness_C7 :
    [("match_id", Cell.str "m"), ("market", Cell.str "1X2"),
     ("selection", Cell.str "Home"), ("price", Cell.num 3), ("book", Cell.str "b2")]
      ∈ ([[("match_id", Cell.str "m"), ("market", Cell.str "1X2"),
           ("selection", Cell.str "Home"), ("price", Cell.num 2), ("book", Cell.str "b1")],
          [("match_id", Cell.str "m"), ("market", Cell.str "1X2"),
           ("selection", Cell.str "Home"), ("price", Cell.num 3), ("book", Cell.str "b2")]] : List Row)
  ∧ ∀ q' ∈ ([[("match_id", Cell.str "m"), ("market", Cell.str "1X2"),
           ("selection", Cell.str "Home"), ("price", Cell.num 2), ("book", Cell.str "b1")],
          [("match_id", Cell.str "m"), ("market", Cell.str "1X2"),
           ("selection", Cell.str "Home"), ("price", Cell.num 3), ("book", Cell.str "b2")]] : List Row),
      sig_of q' = sig_of [("match_id", Cell.str "m"), ("market", Cell.str "1X2"),
        ("selection", Cell.str "Home"), ("price", Cell.num 3), ("book", Cell.str "b2")] →
      q' = [("match_id", Cell.str "m"), ("market", Cell.str "1X2"),
        ("selection", Cell.str "Home"), ("price", Cell.num 3), ("book", Cell.str "b2")]
      ∨ col_desc_le "price" [("match_id", Cell.str "m"), ("market", Cell.str "1X2"),
          ("selection", Cell.str "Home"), ("price", Cell.num 3), ("book", Cell.str "b2")] q' = true :=
  theorem_C7 _ _ (by decide)

/-- C7 (counterexample to the claim as stated): a lone quote with price 1.0
is returned as the group's BestQuote even though its price is not greater
than 1.0. -/
theorem counterexample_C7 :
    best_price_per_sig
      [[("match_id", Cell.str "m"), ("market", Cell.str "1X2"),
        ("selection", Cell.str "Home"), ("price", Cell.num 1)]]
      = [[("match_id", Cell.str "m"), ("market", Cell.str "1X2"),
          ("selection", Cell.str "Home"), ("price", Cell.num 1)]]
  ∧ ¬ ((1 : ℚ) < 1) := by
  constructor
  · decide
  · norm_num

/-! ## Output ordering (claim C9) -/

theorem process_quote_edge_num (idx : List (Cell × Row)) (t : ℚ) (orow r : Row)
    (h : process_quote idx t orow = some r) :
    ∃ q : ℚ, row_get r "edge" = some (Cell.num q) := by
  unfold process_quote at h
  rcases hm : dict_get_last idx (row_get orow "match_id") with _ | mrow
  · rw [hm] at h
    cases h
  · rw [hm] at h
    simp only at h
    rcases he : edge_val
        (extract_model_prob mrow (cell_str (row_getD orow "market" (Cell.str "")))
          (cell_str (row_getD orow "selection" (Cell.str ""))))
        (row_get orow "price") with _ | eg
    · rw [he] at h
      cases h
    · rw [he] at h
      dsimp only at h
      by_cases hlt : eg < t
      · rw [if_pos hlt] at h
        cases h
      · rw [if_neg hlt] at h
        refine ⟨eg, ?_⟩
        rw [← Option.some.injEq _ _ |>.mpr rfl] at h
        cases h
        simp [pick_row_common, row_get]

theorem row_get_clean_pick (r : Row) (c : String) :
    row_get (clean_pick r) c
      = (row_get r c).map
          (fun v => if c = "model_prob" ∨ c = "implied" ∨ c = "edge"
                    then coerce_num v else v) := by
  induction r with
  | nil => rfl
  | cons p ps ih =>
    unfold clean_pick at ih ⊢
    simp only [List.map_cons]
    by_cases hc : p.1 = c
    · by_cases ht : p.1 = "model_prob" ∨ p.1 = "implied" ∨ p.1 = "edge"
      · rw [if_pos ht]
        unfold row_get
        rw [if_pos hc, if_pos hc]
        rw [← hc]
        simp [ht]
      · rw [if_neg ht]
        unfold row_get
        rw [if_pos hc, if_pos hc]
        rw [← hc]
        simp [ht]
    · by_cases ht : p.1 = "model_prob" ∨ p.1 = "implied" ∨ p.1 = "edge"
      · rw [if_pos ht]
        unfold row_get
        rw [if_neg hc, if_neg hc]
        exact ih
      · rw [if_neg ht]
        unfold row_get
        rw [if_neg hc, if_neg hc]
        exact ih

theorem col_desc_le_clean (a b : Row)
    (ha : ∃ q, row_get a "edge" = some (Cell.num q))
    (hb : ∃ q, row_get b "edge" = some (Cell.num q)) :
    col_desc_le "edge" (clean_pick a) (clean_pick b)
      = col_desc_le "edge" a b := by
  obtain ⟨qa, hqa⟩ := ha
  obtain ⟨qb, hqb⟩ := hb
  unfold col_desc_le col_num
  rw [row_get_clean_pick, row_get_clean_pick, hqa, hqb]
  simp [coerce_num]

theorem pairwise_edge_output (idx : List (Cell × Row)) (t : ℚ) (mp : ℕ)
    (l : List Row) :
    (List.map clean_pick
      (List.take mp (sort_ord (col_desc_le "edge")
        (List.filterMap (process_quote idx t) l)))).Pairwise
      (fun a b => col_desc_le "edge" a b = true) := by
  have hnum : ∀ r ∈ sort_ord (col_desc_le "edge")
      (List.filterMap (process_quote idx t) l),
      ∃ q, row_get r "edge" = some (Cell.num q) := by
    intro r hr
    rw [sort_ord_mem] at hr
    rcases List.mem_filterMap.mp hr with ⟨orow, _, hpq⟩
    exact process_quote_edge_num idx t orow r hpq
  have hp : (List.take mp (sort_ord (col_desc_le "edge")
      (List.filterMap (process_quote idx t) l))).Pairwise
      (fun a b => col_desc_le "edge" a b = true) :=
    List.Pairwise.sublist (List.take_sublist _ _)
      (sort_ord_pairwise _ (col_desc_le_total "edge") (col_desc_le_trans "edge") _)
  rw [List.pairwise_map]
  exact hp.imp_of_mem (fun ha hb hab => by
    rw [col_desc_le_clean _ _ (hnum _ (List.mem_of_mem_take ha))
      (hnum _ (List.mem_of_mem_take hb))]
    exact hab)

/-- C9 (amended): the rows returned by `find_value_bets` are always sorted by
descending edge (missing edges last); no kickoff tie-break is applied, so
equal-edge picks retain their pre-sort order. -/
theorem theorem_C9 (fixtures odds model_probs : DataFrame) (t : ℚ)
    (bf : String) (mp : ℕ) :
    (find_value_bets fixtures odds model_probs t bf mp).rows.Pairwise
      (fun a b => col_desc_le "edge" a b = true) := by
  unfold find_value_bets
  dsimp only
  split
  · simp
  · split
    · simp
    · split
      · simp
      · exact pairwise_edge_output _ _ _ _

/-- C9 (counterexample to the claim as stated): two picks with equal edge are
not ordered by earliest kickoff — the pick kicking off 2026-01-02 precedes
the one kicking off 2026-01-01 in the output, although both carry edge 0,
because `find_value_bets` sorts by the edge column alone. -/
theorem counterexample_C9 :
    (find_value_bets fxC9 odC9 mdC9 0 "" 50).rows.map
        (fun r => row_get r "utc_kickoff")
      = [some (Cell.str "2026-01-02"), some (Cell.str "2026-01-01")]
  ∧ (find_value_bets fxC9 odC9 mdC9 0 "" 50).rows.map
        (fun r => row_get r "edge")
      = [some (Cell.num 0), some (Cell.num 0)]
  ∧ "2026-01-01".toList < "2026-01-02".toList := by
  refine ⟨?_, ?_, by decide⟩ <;>
  · simp [find_value_bets, fxC9, odC9, mdC9, ensure_cols, REQUIRED_FIXTURE_COLS,
      REQUIRED_ODDS_COLS, coerce_num, merge_fixtures, book_filter_rows,
      best_price_per_sig, drop_dups_first, sort_ord, insert_ord, col_desc_le,
      col_num, sig_of, mp_index, dict_get_last, process_quote, edge_val,
      implied_prob, extract_model_prob, row_float0, cell_str, row_getD, row_get,
      pick_row_common, py_or, clean_pick, PICK_COLS, List.filterMap]

/-! ## Argument mutation (claim C10) -/

theorem ensure_cols_id (df : DataFrame) (req : List String)
    (h : ∀ c ∈ req, c ∈ df.cols)
    (hp : ∀ r ∈ df.rows, ∀ p ∈ r, p.1 = "price" → coerce_num p.2 = p.2) :
    ensure_cols df req = df := by
  unfold ensure_cols
  have hfold : ∀ (l : List String), (∀ c ∈ l, c ∈ df.cols) →
      List.foldl
        (fun d c =>
          if c ∈ d.cols then d
          else
            { cols := d.cols ++ [c],
              rows := d.rows.map
                (fun r => r ++ [(c, if c = "price" then Cell.na else Cell.str "")]) })
        df l = df := by
    intro l
    induction l with
    | nil => intro _; rfl
    | cons c cs ih =>
      intro hl
      rw [List.foldl_cons, if_pos (hl c (List.mem_cons_self c cs))]
      exact ih (fun c' hc' => hl c' (List.mem_cons_of_mem c hc'))
  dsimp only
  rw [hfold req h]
  by_cases hpc : "price" ∈ df.cols
  · rw [if_pos hpc]
    have hrows : df.rows.map
        (fun r => r.map (fun p => if p.1 = "price" then (p.1, coerce_num p.2) else p))
        = df.rows := by
      have h1 : ∀ r ∈ df.rows,
          r.map (fun p => if p.1 = "price" then (p.1, coerce_num p.2) else p) = r := by
        intro r hr
        have h2 : ∀ p ∈ r,
            (if p.1 = "price" then (p.1, coerce_num p.2) else p) = p := by
          intro p hpmem
          by_cases hpp : p.1 = "price"
          · rw [if_pos hpp, hp r hr p hpmem hpp]
          · rw [if_neg hpp]
        rw [List.map_congr_left h2, List.map_id']
      rw [List.map_congr_left h1, List.map_id']
    rw [hrows]
  · rw [if_neg hpc]

/-- C10 (amended): `find_value_bets` mutates its `fixtures` and `odds`
arguments in place through `_ensure_cols` (adding missing required columns
and coercing the price column); when every required column is already present
and the price cells are fixed by numeric coercion, the arguments are left
unchanged (and `model_probs` is never written). -/
theorem theorem_C10 (fixtures odds model_probs : DataFrame)
    (hf : ∀ c ∈ REQUIRED_FIXTURE_COLS, c ∈ fixtures.cols)
    (ho : ∀ c ∈ REQUIRED_ODDS_COLS, c ∈ odds.cols)
    (hfp : ∀ r ∈ fixtures.rows, ∀ p ∈ r, p.1 = "price" → coerce_num p.2 = p.2)
    (hop : ∀ r ∈ odds.rows, ∀ p ∈ r, p.1 = "price" → coerce_num p.2 = p.2) :
    find_value_bets_arg_state fixtures odds model_probs
      = (fixtures, odds, model_probs) := by
  unfold find_value_bets_arg_state
  rw [ensure_cols_id fixtures REQUIRED_FIXTURE_COLS hf hfp,
    ensure_cols_id odds REQUIRED_ODDS_COLS ho hop]

/-- Closed witness for `theorem_C10` on well-formed one-row frames. -/
theorem witness_C10 :
    find_value_bets_arg_state fxC9 odC9 mdC9 = (fxC9, odC9, mdC9) :=
  theorem_C10 fxC9 odC9 mdC9 (by decide) (by decide) (by decide) (by decide)

/-- C10 (counterexample to the claim as stated): calling `find_value_bets`
on an odds frame lacking the required `book` column leaves the caller's odds
frame changed — `_ensure_cols` has appended the missing column in place. -/
theorem counterexample_C10 :
    (find_value_bets_arg_state fxC9
        ⟨["match_id", "league", "utc_kickoff", "market", "selection", "price",
          "home", "away"], []⟩ mdC9).2.1
      ≠ ⟨["match_id", "league", "utc_kickoff", "market", "selection", "price",
          "home", "away"], []⟩ := by
  decide

end FootballBets
